import Mathlib

/-!
Shallow embedding of the Wordle game core from `wordle_game.py`
(classes `GuessResult`, `GameState`, `WordleGame`).

Modelling conventions:
* Python strings used as words are `List Char` (`Word`); per-letter statuses
  are the literal Python strings "green" / "yellow" / "grey" / "unguessed".
* Python `dict`s (which preserve insertion order and overwrite in place) are
  association lists `List (k × v)` with `dget` / `dset` below reproducing
  lookup and ordered overwrite-or-append assignment.
* The external `word_lists.is_valid_guess` dependency (not part of this
  repository's core, per the module import) is a parameter
  `is_valid_guess : Word → Bool` of `apply_guess`.
* Python `int` is `Int` where sign matters (`calculate_points`,
  remaining letter counts) and `Nat` for sizes; the float timestamp
  `created_at` is modelled as an `Int` tick count — the code only ever
  copies it verbatim.
-/

namespace WordleBot

abbrev Word := List Char

/-- `GuessResult.__init__`: statuses `[]`, flags false, empty error. -/
structure GuessResult where
  statuses : List String
  is_correct : Bool
  is_finished : Bool
  error : String
  deriving Repr, DecidableEq

def GuessResult.init : GuessResult :=
  { statuses := [], is_correct := false, is_finished := false, error := "" }

/-- The fields of Python class `GameState`. -/
structure GameState where
  answer : Word
  difficulty : String
  max_guesses : Nat
  guesses : List Word
  guess_results : List GuessResult
  channel_id : Nat
  created_at : Int
  is_hard_mode : Bool
  green_constraints : List (Nat × Char)
  yellow_constraints : List (Char × List Nat)
  deriving Repr, DecidableEq

/-- `GameState.__init__(answer, difficulty, max_guesses, channel_id)`. -/
def GameState.mk0 (answer : Word) (difficulty : String) (max_guesses : Nat)
    (channel_id : Nat) (created_at : Int) : GameState :=
  { answer := answer
    difficulty := difficulty
    max_guesses := max_guesses
    guesses := []
    guess_results := []
    channel_id := channel_id
    created_at := created_at
    is_hard_mode := difficulty = "hard"
    green_constraints := []
    yellow_constraints := [] }

/-- Python dict lookup `m[k]` / `k in m` on an insertion-ordered assoc list. -/
def dget {α β : Type} [DecidableEq α] : List (α × β) → α → Option β
  | [], _ => none
  | (k0, v0) :: rest, k => if k0 = k then some v0 else dget rest k

/-- Python dict assignment `m[k] = v`: overwrite in place, else append. -/
def dset {α β : Type} [DecidableEq α] : List (α × β) → α → β → List (α × β)
  | [], k, v => [(k, v)]
  | (k0, v0) :: rest, k, v =>
      if k0 = k then (k0, v) :: rest else (k0, v0) :: dset rest k v

/-- First pass setup of `_calculate_guess_result`: per-letter counts of the
answer (`remaining_counts`). -/
def buildRemainingCounts (answer : Word) : List (Char × Int) :=
  answer.foldl (fun m c => dset m c ((dget m c).getD 0 + 1)) []

/-- One iteration of the green-marking loop of `_calculate_guess_result`. -/
def greenStep (answer guess : Word) (acc : List String × List (Char × Int))
    (i : Nat) : List String × List (Char × Int) :=
  if guess.getD i ' ' = answer.getD i ' ' then
    (acc.1.set i "green",
     dset acc.2 (guess.getD i ' ') ((dget acc.2 (guess.getD i ' ')).getD 0 - 1))
  else acc

/-- One iteration of the yellow-marking loop of `_calculate_guess_result`. -/
def yellowStep (guess : Word) (acc : List String × List (Char × Int))
    (i : Nat) : List String × List (Char × Int) :=
  if acc.1.getD i "" ≠ "green" then
    match dget acc.2 (guess.getD i ' ') with
    | some n =>
        if n > 0 then (acc.1.set i "yellow", dset acc.2 (guess.getD i ' ') (n - 1))
        else acc
    | none => acc
  else acc

/-- `GameState._calculate_guess_result(guess)`; the answer is passed
explicitly since the Python method only reads `self.answer`. -/
def calculate_guess_result (answer guess : Word) : List String :=
  let init := (List.replicate 5 "grey", buildRemainingCounts answer)
  let afterGreen := (List.range 5).foldl (greenStep answer guess) init
  ((List.range 5).foldl (yellowStep guess) afterGreen).1

/-- The green-constraint test of one loop iteration of
`_check_hard_mode_constraints` (`\x27` is the ASCII apostrophe of the
Python f-strings). -/
def greenCheck (gc : List (Nat × Char)) (guess : Word) (i : Nat) : Option String :=
  match dget gc i with
  | some required =>
      if guess.getD i ' ' ≠ required then
        some ("Hard mode: position " ++ toString (i + 1) ++ " must be \x27"
          ++ (Char.toUpper required).toString ++ "\x27")
      else none
  | none => none

/-- The yellow-constraint test of one loop iteration of
`_check_hard_mode_constraints`: only presence of the letter is required. -/
def yellowCheck (guess : Word) (lp : Char × List Nat) : Option String :=
  if ¬ lp.1 ∈ guess then
    some ("Hard mode: must use \x27" ++ (Char.toUpper lp.1).toString
      ++ "\x27 from previous guesses")
  else none

/-- `GameState._check_hard_mode_constraints(guess)`: first green violation in
position order 0..4, then first yellow violation in dict insertion order;
`""` when no violation (the early `return` loops are first-some searches). -/
def check_hard_mode_constraints (s : GameState) (guess : Word) : String :=
  match (List.range 5).findSome? (greenCheck s.green_constraints guess) with
  | some msg => msg
  | none =>
      match s.yellow_constraints.findSome? (yellowCheck guess) with
      | some msg => msg
      | none => ""

/-- One iteration of the loop of `_update_hard_mode_constraints`. -/
def hardUpdateStep (guess : Word) (statuses : List String) (st : GameState)
    (i : Nat) : GameState :=
  let status := statuses.getD i ""
  let letter := guess.getD i ' '
  if status = "green" then
    { st with green_constraints := dset st.green_constraints i letter }
  else if status = "yellow" then
    let cur := (dget st.yellow_constraints letter).getD []
    let cur' := if i ∈ cur then cur else cur ++ [i]
    { st with yellow_constraints := dset st.yellow_constraints letter cur' }
  else st

/-- `GameState._update_hard_mode_constraints(guess, statuses)`. -/
def update_hard_mode_constraints (s : GameState) (guess : Word)
    (statuses : List String) : GameState :=
  (List.range 5).foldl (hardUpdateStep guess statuses) s

/-- Helper building the early-return failure results of `apply_guess`. -/
def GuessResult.fail (msg : String) : GuessResult :=
  { statuses := [], is_correct := false, is_finished := false, error := msg }

/-- `GameState.apply_guess(guess)`: returns the mutated state and the result.
`is_valid_guess` stands for the external `word_lists.is_valid_guess`. -/
def apply_guess (is_valid_guess : Word → Bool) (s : GameState) (guess : Word) :
    GameState × GuessResult :=
  if guess.length ≠ 5 then
    (s, GuessResult.fail "Guess must be exactly 5 letters")
  else if ¬ guess.all Char.isAlpha then
    (s, GuessResult.fail "Guess must contain only letters")
  else
    let guess_lower := guess.map Char.toLower
    if guess_lower ∈ s.guesses then
      (s, GuessResult.fail "That word has already been guessed.")
    else if ¬ is_valid_guess guess_lower then
      (s, GuessResult.fail "Not a valid word!")
    else
      let hard_mode_check :=
        if s.is_hard_mode then check_hard_mode_constraints s guess_lower else ""
      if hard_mode_check ≠ "" then
        (s, GuessResult.fail hard_mode_check)
      else
        let guesses' := s.guesses ++ [guess_lower]
        let statuses := calculate_guess_result s.answer guess_lower
        let is_correct := guess_lower = s.answer
        let s1 := { s with guesses := guesses' }
        let s2 := if s.is_hard_mode then
            update_hard_mode_constraints s1 guess_lower statuses
          else s1
        let guesses_used := guesses'.length
        let is_finished :=
          is_correct ∨ (s.max_guesses > 0 ∧ guesses_used ≥ s.max_guesses)
        let result : GuessResult :=
          { statuses := statuses, is_correct := is_correct,
            is_finished := decide is_finished, error := "" }
        ({ s2 with guess_results := s2.guess_results ++ [result] }, result)

/-- The keyboard rows string of `get_keyboard_state`. -/
def keyboardLetters : List Char := "qwertyuiopasdfghjklzxcvbnm".toList

/-- The status-upgrade condition of `get_keyboard_state` (line 157-161). -/
def kbUpgrade (current status : String) : Bool :=
  current = "unguessed" ∨
    (current = "grey" ∧ (status = "yellow" ∨ status = "green")) ∨
    (current = "yellow" ∧ status = "green")

/-- One position of one guess inside `get_keyboard_state`'s update loop. -/
def kbInner (g : Word) (r : GuessResult) (kb : List (Char × String))
    (j : Nat) : List (Char × String) :=
  let letter := g.getD j ' '
  let status := r.statuses.getD j ""
  let current := (dget kb letter).getD ""
  if kbUpgrade current status then dset kb letter status else kb

/-- Processing of one (guess, result) pair inside `get_keyboard_state`. -/
def kbProcessGuess (kb : List (Char × String)) (g : Word)
    (r : GuessResult) : List (Char × String) :=
  (List.range 5).foldl (kbInner g r) kb

/-- `GameState.get_keyboard_state()`. -/
def get_keyboard_state (s : GameState) : List (Char × String) :=
  let init := keyboardLetters.foldl (fun m c => dset m c "unguessed") []
  (s.guesses.zip s.guess_results).foldl
    (fun kb gr => kbProcessGuess kb gr.1 gr.2) init

/-- `GameState.get_guess_count()`. -/
def get_guess_count (s : GameState) : Nat := s.guesses.length

/-- `GameState.is_game_over()` (`guess_results[-1]` modelled by `getLastD`;
it is only reached with `guesses` nonempty, where the histories align). -/
def is_game_over (s : GameState) : Bool :=
  if s.guesses.length = 0 then false
  else (s.guess_results.getLastD GuessResult.init).is_finished

/-- The plain record produced by `GameState.to_dict` as it is persisted by
`storage.py` through JSON: green-constraint position keys are strings. -/
structure GameDict where
  answer : Word
  difficulty : String
  maxGuesses : Nat
  guesses : List Word
  channel_id : Nat
  created_at : Int
  is_hard_mode : Bool
  green_constraints : List (String × Char)
  yellow_constraints : List (Char × List Nat)
  guess_results : List GuessResult
  deriving Repr, DecidableEq

/-- `GameState.to_dict()`; the `.copy()` calls are identities on values. -/
def to_dict (s : GameState) : GameDict :=
  { answer := s.answer
    difficulty := s.difficulty
    maxGuesses := s.max_guesses
    guesses := s.guesses
    channel_id := s.channel_id
    created_at := s.created_at
    is_hard_mode := s.is_hard_mode
    green_constraints := s.green_constraints.map (fun pc => (toString pc.1, pc.2))
    yellow_constraints := s.yellow_constraints
    guess_results := s.guess_results }

/-- Python `int(k)` applied by `from_dict` to a stored green-constraint key:
the decimal value of the digit string.  (On the canonical decimal keys
written by the storage layer this is exactly what `int` returns.) -/
def intOfKey (s : String) : Nat :=
  s.toList.foldl (fun n c => n * 10 + (c.toNat - '0'.toNat)) 0

/-- `GameState.from_dict(game_dict)`. -/
def from_dict (d : GameDict) : GameState :=
  let base := GameState.mk0 d.answer d.difficulty d.maxGuesses d.channel_id
    d.created_at
  { base with
    created_at := d.created_at
    is_hard_mode := d.is_hard_mode
    guesses := d.guesses
    guess_results := d.guess_results
    green_constraints := d.green_constraints.map
      (fun kv => (intOfKey kv.1, kv.2))
    yellow_constraints := d.yellow_constraints }

/-- `WordleGame.calculate_points(difficulty, guesses_used)`; the hard-mode
dict `.get(guesses_used, 0)` is the nested conditional. -/
def calculate_points (difficulty : String) (guesses_used : Int) : Int :=
  if difficulty = "hard" then
    if guesses_used = 1 then 20
    else if guesses_used = 2 then 18
    else if guesses_used = 3 then 16
    else if guesses_used = 4 then 14
    else if guesses_used = 5 then 12
    else if guesses_used = 6 then 10
    else 0
  else if difficulty = "normal" then
    max 0 (10 - (guesses_used - 1))
  else
    max 0 (10 - (guesses_used - 1))

/-- Word-list oracle accepting every word (witness instantiations). -/
def vAll : Word → Bool := fun _ => true

/-- Word-list oracle rejecting every word (witness instantiations). -/
def vNone : Word → Bool := fun _ => false

/-- Fresh NORMAL game with answer "crane" (witness fixture). -/
def craneState : GameState := GameState.mk0 "crane".toList "normal" 0 1 0

/-- NORMAL "crane" game in which "crane" has already been guessed and the
game is finished (witness fixture). -/
def craneGuessedState : GameState :=
  { craneState with
    guesses := ["crane".toList]
    guess_results := [{ statuses := ["green", "green", "green", "green", "green"],
                        is_correct := true, is_finished := true, error := "" }] }

/-- HARD game with a green constraint at position 0 and a yellow constraint
on the letter r (witness fixture). -/
def hardState : GameState :=
  { GameState.mk0 "crane".toList "hard" 6 1 0 with
    guesses := ["caput".toList]
    guess_results := [{ statuses := ["green", "yellow", "grey", "grey", "grey"],
                        is_correct := false, is_finished := false, error := "" }]
    green_constraints := [(0, 'c')]
    yellow_constraints := [('a', [1])] }

/-- Rank of a keyboard status in the spec's upgrade order
unguessed < grey < yellow < green. -/
def statusRank (st : String) : Nat :=
  if st = "green" then 3
  else if st = "yellow" then 2
  else if st = "grey" then 1
  else 0

/-- Maximum of two statuses under the upgrade order (spec section 4.4). -/
def maxStatus (a b : String) : String :=
  if statusRank a < statusRank b then b else a

/-- The statuses the letter c receives at the positions of one recorded
(guess, result) pair (spec-side definition for C5). -/
def pairObservations (g : Word) (r : GuessResult) (c : Char) : List String :=
  (List.range 5).filterMap (fun j =>
    if g.getD j ' ' = c then some (r.statuses.getD j "") else none)

/-- All statuses the letter c ever received across the recorded guesses,
in game order (spec-side definition for C5). -/
def letterObservations (s : GameState) (c : Char) : List String :=
  (s.guesses.zip s.guess_results).flatMap (fun gr => pairObservations gr.1 gr.2 c)

/-- The best status ever observed for c: max-fold of the observations over
the upgrade order starting from unguessed (spec-side definition for C5). -/
def bestStatus (s : GameState) (c : Char) : String :=
  (letterObservations s c).foldl maxStatus "unguessed"

/-- The four status values a keyboard entry can hold. -/
def validStatuses : List String := ["unguessed", "grey", "yellow", "green"]

/-- Keyboard-map well-formedness: keys are exactly the 26 letters in layout
order and every value is one of the four statuses. -/
def ValidKB (kb : List (Char × String)) : Prop :=
  kb.map Prod.fst = keyboardLetters ∧ ∀ p ∈ kb, p.2 ∈ validStatuses

/-- HARD game with multiple guesses and non-empty constraint stores
(round-trip witness fixture). -/
def roundtripState : GameState :=
  { GameState.mk0 "crane".toList "hard" 6 42 123 with
    guesses := ["caput".toList, "carol".toList]
    guess_results :=
      [{ statuses := ["green", "yellow", "grey", "grey", "grey"],
         is_correct := false, is_finished := false, error := "" },
       { statuses := ["green", "yellow", "yellow", "grey", "grey"],
         is_correct := false, is_finished := false, error := "" }]
    green_constraints := [(0, 'c')]
    yellow_constraints := [('a', [1, 2]), ('r', [2])] }

/-! ### Helper lemmas -/

theorem hardUpdateStep_preserve (g : Word) (stl : List String) (s : GameState)
    (i : Nat) :
    (hardUpdateStep g stl s i).answer = s.answer ∧
    (hardUpdateStep g stl s i).guesses = s.guesses ∧
    (hardUpdateStep g stl s i).guess_results = s.guess_results ∧
    (hardUpdateStep g stl s i).max_guesses = s.max_guesses := by
  unfold hardUpdateStep
  dsimp only
  split_ifs <;> simp

theorem foldl_hardUpdateStep_preserve (g : Word) (stl : List String)
    (l : List Nat) (s : GameState) :
    (l.foldl (hardUpdateStep g stl) s).answer = s.answer ∧
    (l.foldl (hardUpdateStep g stl) s).guesses = s.guesses ∧
    (l.foldl (hardUpdateStep g stl) s).guess_results = s.guess_results ∧
    (l.foldl (hardUpdateStep g stl) s).max_guesses = s.max_guesses := by
  induction l generalizing s with
  | nil => exact ⟨rfl, rfl, rfl, rfl⟩
  | cons i l ih =>
      rw [List.foldl_cons]
      obtain ⟨h1, h2, h3, h4⟩ := ih (hardUpdateStep g stl s i)
      obtain ⟨g1, g2, g3, g4⟩ := hardUpdateStep_preserve g stl s i
      exact ⟨h1.trans g1, h2.trans g2, h3.trans g3, h4.trans g4⟩

theorem update_hmc_preserve (s : GameState) (g : Word) (stl : List String) :
    (update_hard_mode_constraints s g stl).answer = s.answer ∧
    (update_hard_mode_constraints s g stl).guesses = s.guesses ∧
    (update_hard_mode_constraints s g stl).guess_results = s.guess_results ∧
    (update_hard_mode_constraints s g stl).max_guesses = s.max_guesses :=
  foldl_hardUpdateStep_preserve g stl (List.range 5) s

theorem dget_dset_self {α β : Type} [DecidableEq α] (m : List (α × β))
    (k : α) (v : β) : dget (dset m k v) k = some v := by
  induction m with
  | nil => simp [dset, dget]
  | cons p m ih =>
      by_cases h : p.1 = k
      · simp [dset, dget, h]
      · simp [dset, dget, h, ih]

theorem dget_dset_ne {α β : Type} [DecidableEq α] (m : List (α × β))
    (k k' : α) (v : β) (h : k ≠ k') :
    dget (dset m k v) k' = dget m k' := by
  induction m with
  | nil => simp [dset, dget, h]
  | cons p m ih =>
      by_cases hp : p.1 = k
      · simp [dset, dget, hp, h]
      · simp only [dset, hp, if_false]
        by_cases hp' : p.1 = k'
        · simp [dget, hp']
        · simp [dget, hp', ih]

theorem dset_keys_of_mem {α β : Type} [DecidableEq α] (m : List (α × β))
    (k : α) (v : β) (h : k ∈ m.map Prod.fst) :
    (dset m k v).map Prod.fst = m.map Prod.fst := by
  induction m with
  | nil => simp at h
  | cons p m ih =>
      by_cases hp : p.1 = k
      · simp [dset, hp]
      · have hm : k ∈ m.map Prod.fst := by
          rcases List.mem_map.mp h with ⟨q, hq, hqk⟩
          rcases List.mem_cons.mp hq with rfl | hq'
          · exact absurd hqk hp
          · exact List.mem_map.mpr ⟨q, hq', hqk⟩
        simp [dset, hp, ih hm]

theorem mem_of_mem_dset {α β : Type} [DecidableEq α] (m : List (α × β))
    (k : α) (v : β) (p : α × β) (h : p ∈ dset m k v) :
    p ∈ m ∨ p = (k, v) := by
  induction m with
  | nil => simpa [dset] using h
  | cons q m ih =>
      by_cases hq : q.1 = k
      · simp only [dset, hq, if_true] at h
        rcases List.mem_cons.mp h with rfl | h'
        · right
          rw [← hq]
        · exact Or.inl (List.mem_cons_of_mem q h')
      · simp only [dset, hq, if_false] at h
        rcases List.mem_cons.mp h with rfl | h'
        · exact Or.inl (List.mem_cons_self _ _)
        · rcases ih h' with h'' | h''
          · exact Or.inl (List.mem_cons_of_mem q h'')
          · exact Or.inr h''

theorem dget_mem {α β : Type} [DecidableEq α] (m : List (α × β)) (k : α)
    (v : β) (h : dget m k = some v) : (k, v) ∈ m := by
  induction m with
  | nil => simp [dget] at h
  | cons p m ih =>
      by_cases hp : p.1 = k
      · simp only [dget, hp, if_true, Option.some.injEq] at h
        subst h
        rw [← hp]
        exact List.mem_cons_self p m
      · simp only [dget, hp, if_false] at h
        exact List.mem_cons_of_mem p (ih h)

theorem dget_isSome_of_mem_keys {α β : Type} [DecidableEq α]
    (m : List (α × β)) (k : α) (h : k ∈ m.map Prod.fst) :
    ∃ v, dget m k = some v := by
  induction m with
  | nil => simp at h
  | cons p m ih =>
      by_cases hp : p.1 = k
      · exact ⟨p.2, by simp [dget, hp]⟩
      · have hm : k ∈ m.map Prod.fst := by
          rcases List.mem_map.mp h with ⟨q, hq, hqk⟩
          rcases List.mem_cons.mp hq with rfl | hq'
          · exact absurd hqk hp
          · exact List.mem_map.mpr ⟨q, hq', hqk⟩
        rcases ih hm with ⟨v, hv⟩
        exact ⟨v, by simp [dget, hp, hv]⟩

theorem upgrade_eq_max (v st : String) (hv : v ∈ validStatuses)
    (hst : st ∈ ["grey", "yellow", "green"]) :
    (if kbUpgrade v st then st else v) = maxStatus v st := by
  fin_cases hv <;> fin_cases hst <;> decide

theorem kbInner_spec (g : Word) (r : GuessResult) (kb : List (Char × String))
    (j : Nat) (hkb : ValidKB kb)
    (hl : g.getD j ' ' ∈ keyboardLetters)
    (hst : r.statuses.getD j "" ∈ ["grey", "yellow", "green"]) :
    ValidKB (kbInner g r kb j) ∧
    ∀ c : Char, dget (kbInner g r kb j) c =
      if g.getD j ' ' = c then
        (dget kb c).map (fun v => maxStatus v (r.statuses.getD j ""))
      else dget kb c := by
  set ℓ := g.getD j ' ' with hℓdef
  set st := r.statuses.getD j "" with hstdef
  have hkey : ℓ ∈ kb.map Prod.fst := by rw [hkb.1]; exact hl
  rcases dget_isSome_of_mem_keys kb ℓ hkey with ⟨v, hv⟩
  have hvval : v ∈ validStatuses := hkb.2 (ℓ, v) (dget_mem kb ℓ v hv)
  have hcur : (dget kb ℓ).getD "" = v := by rw [hv]; rfl
  have hmax : (if kbUpgrade v st then st else v) = maxStatus v st :=
    upgrade_eq_max v st hvval hst
  unfold kbInner
  dsimp only
  rw [hcur]
  by_cases hup : kbUpgrade v st = true
  · rw [if_pos hup]
    refine ⟨⟨?_, ?_⟩, ?_⟩
    · rw [dset_keys_of_mem kb ℓ st hkey, hkb.1]
    · intro p hp
      rcases mem_of_mem_dset kb ℓ st p hp with hp' | hp'
      · exact hkb.2 p hp'
      · rw [hp']
        simp only [validStatuses, List.mem_cons] at hst ⊢
        tauto
    · intro c
      by_cases hc : ℓ = c
      · subst hc
        rw [dget_dset_self, if_pos rfl, hv]
        simp only [Option.map_some']
        rw [← hmax, if_pos hup]
      · rw [dget_dset_ne kb ℓ c st hc, if_neg hc]
  · rw [if_neg hup]
    refine ⟨hkb, ?_⟩
    intro c
    by_cases hc : ℓ = c
    · subst hc
      rw [if_pos rfl, hv]
      simp only [Option.map_some']
      rw [← hmax, if_neg hup]
    · rw [if_neg hc]

theorem kbInner_fold_spec (g : Word) (r : GuessResult) (js : List Nat)
    (kb : List (Char × String)) (hkb : ValidKB kb)
    (hl : ∀ j ∈ js, g.getD j ' ' ∈ keyboardLetters)
    (hst : ∀ j ∈ js, r.statuses.getD j "" ∈ ["grey", "yellow", "green"]) :
    ValidKB (js.foldl (kbInner g r) kb) ∧
    ∀ c : Char, dget (js.foldl (kbInner g r) kb) c =
      (dget kb c).map (fun v =>
        (js.filterMap (fun j =>
          if g.getD j ' ' = c then some (r.statuses.getD j "") else none)).foldl
            maxStatus v) := by
  induction js generalizing kb with
  | nil =>
      refine ⟨hkb, ?_⟩
      intro c
      rw [List.foldl_nil]
      cases dget kb c <;> rfl
  | cons j js ih =>
      have hj := kbInner_spec g r kb j hkb (hl j (List.mem_cons_self j js))
        (hst j (List.mem_cons_self j js))
      have ihj := ih (kbInner g r kb j) hj.1
        (fun x hx => hl x (List.mem_cons_of_mem j hx))
        (fun x hx => hst x (List.mem_cons_of_mem j hx))
      refine ⟨ihj.1, ?_⟩
      intro c
      rw [List.foldl_cons, ihj.2 c, hj.2 c]
      by_cases hc : g.getD j ' ' = c
      · rw [if_pos hc]
        have hfm : List.filterMap (fun j =>
              if List.getD g j ' ' = c then some (r.statuses.getD j "") else none)
              (j :: js) =
            r.statuses.getD j "" :: List.filterMap (fun j =>
              if List.getD g j ' ' = c then some (r.statuses.getD j "") else none)
              js := by
          rw [List.filterMap_cons_some]
          exact if_pos hc
        cases dget kb c with
        | none => rfl
        | some v => simp only [Option.map_some', hfm, List.foldl_cons]
      · rw [if_neg hc]
        have hfm : List.filterMap (fun j =>
              if List.getD g j ' ' = c then some (r.statuses.getD j "") else none)
              (j :: js) =
            List.filterMap (fun j =>
              if List.getD g j ' ' = c then some (r.statuses.getD j "") else none)
              js := by
          rw [List.filterMap_cons_none]
          exact if_neg hc
        cases dget kb c with
        | none => rfl
        | some v => simp only [Option.map_some', hfm]

theorem kb_pairs_fold_spec (ps : List (Word × GuessResult))
    (kb : List (Char × String)) (hkb : ValidKB kb)
    (hps : ∀ p ∈ ps, (∀ j ∈ List.range 5, p.1.getD j ' ' ∈ keyboardLetters) ∧
      (∀ j ∈ List.range 5, p.2.statuses.getD j "" ∈ ["grey", "yellow", "green"])) :
    ValidKB (ps.foldl (fun kb gr => kbProcessGuess kb gr.1 gr.2) kb) ∧
    ∀ c : Char, dget (ps.foldl (fun kb gr => kbProcessGuess kb gr.1 gr.2) kb) c =
      (dget kb c).map (fun v =>
        (ps.flatMap (fun gr => pairObservations gr.1 gr.2 c)).foldl maxStatus v) := by
  induction ps generalizing kb with
  | nil =>
      refine ⟨hkb, ?_⟩
      intro c
      rw [List.foldl_nil]
      cases dget kb c <;> rfl
  | cons p ps ih =>
      have hp := hps p (List.mem_cons_self p ps)
      have h1 := kbInner_fold_spec p.1 p.2 (List.range 5) kb hkb hp.1 hp.2
      have ihp := ih (kbProcessGuess kb p.1 p.2) h1.1
        (fun x hx => hps x (List.mem_cons_of_mem p hx))
      simp only [List.foldl_cons]
      refine ⟨ihp.1, ?_⟩
      intro c
      rw [ihp.2 c]
      unfold kbProcessGuess
      rw [h1.2 c, List.flatMap_cons, Option.map_map]
      cases dget kb c with
      | none => rfl
      | some v =>
          simp only [Option.map_some', Function.comp]
          unfold pairObservations
          rw [List.foldl_append]

theorem getD_set_eq {α : Type} (l : List α) (i : Nat) (a d : α)
    (h : i < l.length) : (l.set i a).getD i d = a := by
  induction l generalizing i with
  | nil => simp at h
  | cons x l ih =>
      cases i with
      | zero => rfl
      | succ i => exact ih i (by simpa using h)

theorem getD_set_ne {α : Type} (l : List α) (i k : Nat) (a d : α)
    (h : i ≠ k) : (l.set i a).getD k d = l.getD k d := by
  induction l generalizing i k with
  | nil => rfl
  | cons x l ih =>
      cases i with
      | zero =>
          cases k with
          | zero => exact absurd rfl h
          | succ k => rfl
      | succ i =>
          cases k with
          | zero => rfl
          | succ k => exact ih i k (fun he => h (by rw [he]))

theorem greenPass_spec (A G : Word) (js : List Nat) (S : List String)
    (C : List (Char × Int)) (hjs : ∀ i ∈ js, i < 5) (hlen : S.length = 5) :
    (js.foldl (greenStep A G) (S, C)).1.length = 5 ∧
    (∀ k : Nat,
      (js.foldl (greenStep A G) (S, C)).1.getD k "" =
        if k ∈ js ∧ G.getD k ' ' = A.getD k ' ' then "green" else S.getD k "") ∧
    (∀ c : Char, (dget (js.foldl (greenStep A G) (S, C)).2 c).getD 0 =
      (dget C c).getD 0 -
        (js.countP (fun i =>
          G.getD i ' ' = A.getD i ' ' ∧ G.getD i ' ' = c) : Int)) := by
  induction js generalizing S C with
  | nil => simp [hlen]
  | cons i js ih =>
      have hi5 : i < 5 := hjs i (List.mem_cons_self i js)
      have hjs' : ∀ x ∈ js, x < 5 := fun x hx => hjs x (List.mem_cons_of_mem i hx)
      rw [List.foldl_cons]
      by_cases hm : G.getD i ' ' = A.getD i ' '
      · have hstep : greenStep A G (S, C) i =
            (S.set i "green",
             dset C (G.getD i ' ') ((dget C (G.getD i ' ')).getD 0 - 1)) := by
          unfold greenStep
          rw [if_pos hm]
        rw [hstep]
        obtain ⟨ih1, ih2, ih3⟩ := ih (S.set i "green")
          (dset C (G.getD i ' ') ((dget C (G.getD i ' ')).getD 0 - 1))
          hjs' (by rw [List.length_set]; exact hlen)
        refine ⟨ih1, ?_, ?_⟩
        · intro k
          rw [ih2 k]
          by_cases hk : k ∈ js ∧ G.getD k ' ' = A.getD k ' '
          · rw [if_pos hk, if_pos ⟨List.mem_cons_of_mem i hk.1, hk.2⟩]
          · rw [if_neg hk]
            by_cases hki : k = i
            · subst hki
              rw [if_pos ⟨List.mem_cons_self k js, hm⟩,
                getD_set_eq S k "green" "" (by rw [hlen]; exact hi5)]
            · rw [getD_set_ne S i k "green" "" (fun he => hki he.symm), if_neg ?_]
              intro hcon
              rcases List.mem_cons.mp hcon.1 with rfl | hmem
              · exact hki rfl
              · exact hk ⟨hmem, hcon.2⟩
        · intro c
          rw [ih3 c, List.countP_cons]
          by_cases hc : G.getD i ' ' = c
          · subst hc
            rw [dget_dset_self]
            have hp : decide (G.getD i ' ' = A.getD i ' ' ∧
                G.getD i ' ' = G.getD i ' ') = true := decide_eq_true ⟨hm, rfl⟩
            rw [hp, if_pos rfl]
            simp only [Option.getD_some]
            push_cast
            omega
          · rw [dget_dset_ne C (G.getD i ' ') c _ hc]
            have hp : decide (G.getD i ' ' = A.getD i ' ' ∧
                G.getD i ' ' = c) = false := decide_eq_false (fun h => hc h.2)
            rw [hp, if_neg Bool.false_ne_true]
            push_cast
            omega
      · have hstep : greenStep A G (S, C) i = (S, C) := by
          unfold greenStep
          rw [if_neg hm]
        rw [hstep]
        obtain ⟨ih1, ih2, ih3⟩ := ih S C hjs' hlen
        refine ⟨ih1, ?_, ?_⟩
        · intro k
          rw [ih2 k]
          by_cases hk : k ∈ js ∧ G.getD k ' ' = A.getD k ' '
          · rw [if_pos hk, if_pos ⟨List.mem_cons_of_mem i hk.1, hk.2⟩]
          · rw [if_neg hk, if_neg ?_]
            intro hcon
            rcases List.mem_cons.mp hcon.1 with rfl | hmem
            · exact hm hcon.2
            · exact hk ⟨hmem, hcon.2⟩
        · intro c
          rw [ih3 c, List.countP_cons]
          have hp : decide (G.getD i ' ' = A.getD i ' ' ∧ G.getD i ' ' = c) = false :=
            decide_eq_false (fun h => hm h.1)
          rw [hp, if_neg Bool.false_ne_true]
          push_cast
          omega

theorem dget_buildRemainingCounts_aux (l : List Char) (m : List (Char × Int))
    (c : Char) :
    (dget (l.foldl (fun m c => dset m c ((dget m c).getD 0 + 1)) m) c).getD 0 =
      (dget m c).getD 0 + (l.count c : Int) := by
  induction l generalizing m with
  | nil => simp
  | cons a l ih =>
      rw [List.foldl_cons, ih]
      by_cases hac : a = c
      · subst hac
        rw [dget_dset_self, List.count_cons_self]
        simp only [Option.getD_some]
        push_cast
        ring
      · rw [dget_dset_ne m a c _ hac,
          List.count_cons_of_ne (fun h => hac h.symm) l]

theorem dget_buildRemainingCounts (A : Word) (c : Char) :
    (dget (buildRemainingCounts A) c).getD 0 = (A.count c : Int) := by
  unfold buildRemainingCounts
  rw [dget_buildRemainingCounts_aux]
  simp [dget]

theorem countP_getD_eq_count {α : Type} [DecidableEq α] (l : List α)
    (d c : α) :
    (List.range l.length).countP (fun i => l.getD i d = c) = l.count c := by
  induction l with
  | nil => rfl
  | cons a l ih =>
      rw [List.length_cons, List.range_succ_eq_map, List.countP_cons,
        List.countP_map]
      have hcomp : ((fun i => decide (List.getD (a :: l) i d = c)) ∘ Nat.succ) =
          (fun i => decide (List.getD l i d = c)) := by
        funext i
        rfl
      rw [hcomp, ih]
      by_cases hac : a = c
      · subst hac
        have hp : decide (List.getD (a :: l) 0 d = a) = true := decide_eq_true rfl
        rw [hp, if_pos rfl, List.count_cons_self]
      · have hp : decide (List.getD (a :: l) 0 d = c) = false :=
          decide_eq_false (fun h => hac h)
        rw [hp, if_neg Bool.false_ne_true,
          List.count_cons_of_ne (fun h => hac h.symm) l]
        omega

theorem countP_le_countP_add_countP {α : Type} (l : List α) (p q r : α → Bool)
    (h : ∀ a ∈ l, r a = true → p a = true ∨ q a = true) :
    l.countP r ≤ l.countP p + l.countP q := by
  induction l with
  | nil => simp
  | cons a l ih =>
      rw [List.countP_cons, List.countP_cons, List.countP_cons]
      have hih := ih (fun x hx => h x (List.mem_cons_of_mem a hx))
      by_cases hr : r a = true
      · rcases h a (List.mem_cons_self a l) hr with hp | hq
        · rw [if_pos hr, if_pos hp]
          omega
        · rw [if_pos hr, if_pos hq]
          omega
      · rw [if_neg hr]
        omega

theorem countP_congr_eq {α : Type} (l : List α) (p q : α → Bool)
    (h : ∀ a ∈ l, p a = q a) : l.countP p = l.countP q := by
  induction l with
  | nil => rfl
  | cons a l ih =>
      rw [List.countP_cons, List.countP_cons,
        ih (fun x hx => h x (List.mem_cons_of_mem a hx)),
        h a (List.mem_cons_self a l)]

theorem yellowPass_spec (G : Word) (js : List Nat) (S : List String)
    (C : List (Char × Int))
    (hjs : ∀ i ∈ js, i < 5) (hnd : js.Nodup) (hlen : S.length = 5)
    (hgg : ∀ i ∈ js, S.getD i "" = "green" ∨ S.getD i "" = "grey") :
    (js.foldl (yellowStep G) (S, C)).1.length = 5 ∧
    (∀ k : Nat, k ∉ js →
      (js.foldl (yellowStep G) (S, C)).1.getD k "" = S.getD k "") ∧
    (∀ i ∈ js, S.getD i "" = "green" →
      (js.foldl (yellowStep G) (S, C)).1.getD i "" = "green") ∧
    (∀ i ∈ js, S.getD i "" = "grey" →
      (js.foldl (yellowStep G) (S, C)).1.getD i "" = "yellow" ∨
      (js.foldl (yellowStep G) (S, C)).1.getD i "" = "grey") ∧
    (∀ c : Char, 0 ≤ (dget C c).getD 0 →
      0 ≤ (dget (js.foldl (yellowStep G) (S, C)).2 c).getD 0 ∧
      (dget (js.foldl (yellowStep G) (S, C)).2 c).getD 0 =
        (dget C c).getD 0 -
          (js.countP (fun i => G.getD i ' ' = c ∧
            (js.foldl (yellowStep G) (S, C)).1.getD i "" = "yellow") : Int)) := by
  induction js generalizing S C with
  | nil =>
      refine ⟨hlen, fun k _ => rfl, fun i hi => absurd hi (List.not_mem_nil i),
        fun i hi => absurd hi (List.not_mem_nil i), ?_⟩
      intro c hc
      simpa using hc
  | cons i js ih =>
      have hi5 : i < 5 := hjs i (List.mem_cons_self i js)
      have hjs' : ∀ x ∈ js, x < 5 := fun x hx => hjs x (List.mem_cons_of_mem i hx)
      obtain ⟨hinotin, hnd'⟩ := List.nodup_cons.mp hnd
      rw [List.foldl_cons]
      rcases hgg i (List.mem_cons_self i js) with hSi | hSi
      · -- position i already green: the loop body is a no-op there
        have hstep : yellowStep G (S, C) i = (S, C) := by
          unfold yellowStep
          dsimp only
          rw [if_neg (not_not_intro hSi)]
        rw [hstep]
        obtain ⟨ih1, ih2, ih3, ih4, ih5⟩ := ih S C hjs' hnd' hlen
          (fun x hx => hgg x (List.mem_cons_of_mem i hx))
        refine ⟨ih1, ?_, ?_, ?_, ?_⟩
        · intro k hk
          exact ih2 k (fun h => hk (List.mem_cons_of_mem i h))
        · intro x hx hgx
          rcases List.mem_cons.mp hx with rfl | hx'
          · rw [ih2 x hinotin]
            exact hgx
          · exact ih3 x hx' hgx
        · intro x hx hgx
          rcases List.mem_cons.mp hx with rfl | hx'
          · rw [ih2 x hinotin]
            exact Or.inr hgx
          · exact ih4 x hx' hgx
        · intro c hc
          obtain ⟨h51, h52⟩ := ih5 c hc
          refine ⟨h51, ?_⟩
          rw [h52, List.countP_cons]
          have hfin : (js.foldl (yellowStep G) (S, C)).1.getD i "" = S.getD i "" :=
            ih2 i hinotin
          have hp : decide (G.getD i ' ' = c ∧
              (js.foldl (yellowStep G) (S, C)).1.getD i "" = "yellow") = false :=
            decide_eq_false (fun h =>
              absurd (hSi.symm.trans (hfin.symm.trans h.2)) (by decide))
          rw [hp, if_neg Bool.false_ne_true]
          push_cast
          omega
      · -- position i grey
        have hne : S.getD i "" ≠ "green" := by
          rw [hSi]
          decide
        cases hdg : dget C (G.getD i ' ') with
        | none =>
            have hstep : yellowStep G (S, C) i = (S, C) := by
              unfold yellowStep
              dsimp only
              rw [if_pos hne, hdg]
            rw [hstep]
            obtain ⟨ih1, ih2, ih3, ih4, ih5⟩ := ih S C hjs' hnd' hlen
              (fun x hx => hgg x (List.mem_cons_of_mem i hx))
            refine ⟨ih1, ?_, ?_, ?_, ?_⟩
            · intro k hk
              exact ih2 k (fun h => hk (List.mem_cons_of_mem i h))
            · intro x hx hgx
              rcases List.mem_cons.mp hx with rfl | hx'
              · rw [ih2 x hinotin]
                exact hgx
              · exact ih3 x hx' hgx
            · intro x hx hgx
              rcases List.mem_cons.mp hx with rfl | hx'
              · rw [ih2 x hinotin]
                exact Or.inr hgx
              · exact ih4 x hx' hgx
            · intro c hc
              obtain ⟨h51, h52⟩ := ih5 c hc
              refine ⟨h51, ?_⟩
              rw [h52, List.countP_cons]
              have hfin : (js.foldl (yellowStep G) (S, C)).1.getD i "" =
                  S.getD i "" := ih2 i hinotin
              have hp : decide (G.getD i ' ' = c ∧
                  (js.foldl (yellowStep G) (S, C)).1.getD i "" = "yellow") = false :=
                decide_eq_false (fun h =>
                  absurd (hSi.symm.trans (hfin.symm.trans h.2)) (by decide))
              rw [hp, if_neg Bool.false_ne_true]
              push_cast
              omega
        | some n =>
            by_cases hn : n > 0
            · -- the letter still has remaining count: mark yellow, consume one
              have hstep : yellowStep G (S, C) i =
                  (S.set i "yellow", dset C (G.getD i ' ') (n - 1)) := by
                unfold yellowStep
                dsimp only
                rw [if_pos hne, hdg]
                dsimp only
                rw [if_pos hn]
              rw [hstep]
              have hlen1 : (S.set i "yellow").length = 5 := by
                rw [List.length_set]
                exact hlen
              have hgg1 : ∀ x ∈ js, (S.set i "yellow").getD x "" = "green" ∨
                  (S.set i "yellow").getD x "" = "grey" := by
                intro x hx
                rw [getD_set_ne S i x "yellow" "" (fun he => hinotin (he ▸ hx))]
                exact hgg x (List.mem_cons_of_mem i hx)
              obtain ⟨ih1, ih2, ih3, ih4, ih5⟩ := ih (S.set i "yellow")
                (dset C (G.getD i ' ') (n - 1)) hjs' hnd' hlen1 hgg1
              have hS1i : (S.set i "yellow").getD i "" = "yellow" :=
                getD_set_eq S i "yellow" "" (by rw [hlen]; exact hi5)
              have hfini : (js.foldl (yellowStep G)
                  (S.set i "yellow", dset C (G.getD i ' ') (n - 1))).1.getD i "" =
                  "yellow" := by
                rw [ih2 i hinotin, hS1i]
              refine ⟨ih1, ?_, ?_, ?_, ?_⟩
              · intro k hk
                have hki : i ≠ k := fun he => hk (he ▸ List.mem_cons_self i js)
                rw [ih2 k (fun h => hk (List.mem_cons_of_mem i h)),
                  getD_set_ne S i k "yellow" "" hki]
              · intro x hx hgx
                rcases List.mem_cons.mp hx with rfl | hx'
                · exact absurd (hSi.symm.trans hgx) (by decide)
                · refine ih3 x hx' ?_
                  rw [getD_set_ne S i x "yellow" "" (fun he => hinotin (he ▸ hx'))]
                  exact hgx
              · intro x hx hgx
                rcases List.mem_cons.mp hx with rfl | hx'
                · exact Or.inl hfini
                · exact ih4 x hx' (by
                    rw [getD_set_ne S i x "yellow" "" (fun he => hinotin (he ▸ hx'))]
                    exact hgx)
              · intro c hc
                by_cases hgc : G.getD i ' ' = c
                · subst hgc
                  have hCn : (dget C (G.getD i ' ')).getD 0 = n := by
                    rw [hdg]
                    rfl
                  have hc1 : 0 ≤ (dget (dset C (G.getD i ' ') (n - 1))
                      (G.getD i ' ')).getD 0 := by
                    rw [dget_dset_self]
                    simp only [Option.getD_some]
                    omega
                  obtain ⟨h51, h52⟩ := ih5 (G.getD i ' ') hc1
                  refine ⟨h51, ?_⟩
                  rw [h52, dget_dset_self, List.countP_cons]
                  have hp : decide (G.getD i ' ' = G.getD i ' ' ∧
                      (js.foldl (yellowStep G)
                        (S.set i "yellow", dset C (G.getD i ' ') (n - 1))).1.getD
                          i "" = "yellow") = true :=
                    decide_eq_true ⟨rfl, hfini⟩
                  rw [hp, if_pos rfl]
                  simp only [Option.getD_some]
                  rw [hCn]
                  push_cast
                  omega
                · have hc1 : 0 ≤ (dget (dset C (G.getD i ' ') (n - 1)) c).getD 0 := by
                    rw [dget_dset_ne C (G.getD i ' ') c _ hgc]
                    exact hc
                  obtain ⟨h51, h52⟩ := ih5 c hc1
                  refine ⟨h51, ?_⟩
                  rw [h52, dget_dset_ne C (G.getD i ' ') c _ hgc, List.countP_cons]
                  have hp : decide (G.getD i ' ' = c ∧
                      (js.foldl (yellowStep G)
                        (S.set i "yellow", dset C (G.getD i ' ') (n - 1))).1.getD
                          i "" = "yellow") = false :=
                    decide_eq_false (fun h => hgc h.1)
                  rw [hp, if_neg Bool.false_ne_true]
                  push_cast
                  omega
            · -- count exhausted: grey stays, nothing consumed
              have hstep : yellowStep G (S, C) i = (S, C) := by
                unfold yellowStep
                dsimp only
                rw [if_pos hne, hdg]
                dsimp only
                rw [if_neg hn]
              rw [hstep]
              obtain ⟨ih1, ih2, ih3, ih4, ih5⟩ := ih S C hjs' hnd' hlen
                (fun x hx => hgg x (List.mem_cons_of_mem i hx))
              refine ⟨ih1, ?_, ?_, ?_, ?_⟩
              · intro k hk
                exact ih2 k (fun h => hk (List.mem_cons_of_mem i h))
              · intro x hx hgx
                rcases List.mem_cons.mp hx with rfl | hx'
                · rw [ih2 x hinotin]
                  exact hgx
                · exact ih3 x hx' hgx
              · intro x hx hgx
                rcases List.mem_cons.mp hx with rfl | hx'
                · rw [ih2 x hinotin]
                  exact Or.inr hgx
                · exact ih4 x hx' hgx
              · intro c hc
                obtain ⟨h51, h52⟩ := ih5 c hc
                refine ⟨h51, ?_⟩
                rw [h52, List.countP_cons]
                have hfin : (js.foldl (yellowStep G) (S, C)).1.getD i "" =
                    S.getD i "" := ih2 i hinotin
                have hp : decide (G.getD i ' ' = c ∧
                    (js.foldl (yellowStep G) (S, C)).1.getD i "" = "yellow") = false :=
                  decide_eq_false (fun h =>
                    absurd (hSi.symm.trans (hfin.symm.trans h.2)) (by decide))
                rw [hp, if_neg Bool.false_ne_true]
                push_cast
                omega

theorem apply_guess_fail_len (v : Word → Bool) (s : GameState) (g : Word)
    (h1 : g.length ≠ 5) :
    apply_guess v s g = (s, GuessResult.fail "Guess must be exactly 5 letters") := by
  simp [apply_guess, h1]

theorem apply_guess_fail_alpha (v : Word → Bool) (s : GameState) (g : Word)
    (h1 : g.length = 5) (h2 : ¬ (g.all Char.isAlpha = true)) :
    apply_guess v s g = (s, GuessResult.fail "Guess must contain only letters") := by
  simp [apply_guess, h1, h2]

theorem apply_guess_fail_dup (v : Word → Bool) (s : GameState) (g : Word)
    (h1 : g.length = 5) (h2 : g.all Char.isAlpha = true)
    (h3 : g.map Char.toLower ∈ s.guesses) :
    apply_guess v s g = (s, GuessResult.fail "That word has already been guessed.") := by
  simp [apply_guess, h1, h2, h3]

theorem apply_guess_fail_word (v : Word → Bool) (s : GameState) (g : Word)
    (h1 : g.length = 5) (h2 : g.all Char.isAlpha = true)
    (h3 : g.map Char.toLower ∉ s.guesses) (h4 : v (g.map Char.toLower) = false) :
    apply_guess v s g = (s, GuessResult.fail "Not a valid word!") := by
  simp [apply_guess, h1, h2, h3, h4]

theorem apply_guess_fail_hard (v : Word → Bool) (s : GameState) (g : Word)
    (h1 : g.length = 5) (h2 : g.all Char.isAlpha = true)
    (h3 : g.map Char.toLower ∉ s.guesses) (h4 : v (g.map Char.toLower) = true)
    (h5 : s.is_hard_mode = true)
    (h6 : check_hard_mode_constraints s (g.map Char.toLower) ≠ "") :
    apply_guess v s g =
      (s, GuessResult.fail (check_hard_mode_constraints s (g.map Char.toLower))) := by
  simp [apply_guess, h1, h2, h3, h4, h5, h6]

theorem apply_guess_success_eq (v : Word → Bool) (s : GameState) (g : Word)
    (h1 : g.length = 5) (h2 : g.all Char.isAlpha = true)
    (h3 : g.map Char.toLower ∉ s.guesses) (h4 : v (g.map Char.toLower) = true)
    (h5 : s.is_hard_mode = true →
      check_hard_mode_constraints s (g.map Char.toLower) = "") :
    apply_guess v s g =
      (let gl := g.map Char.toLower
       let statuses := calculate_guess_result s.answer gl
       let s1 : GameState := { s with guesses := s.guesses ++ [gl] }
       let s2 := if s.is_hard_mode then
           update_hard_mode_constraints s1 gl statuses
         else s1
       let result : GuessResult :=
         { statuses := statuses,
           is_correct := decide (gl = s.answer),
           is_finished := decide (gl = s.answer ∨
             (s.max_guesses > 0 ∧ (s.guesses ++ [gl]).length ≥ s.max_guesses)),
           error := "" }
       ({ s2 with guess_results := s2.guess_results ++ [result] }, result)) := by
  by_cases hm : s.is_hard_mode = true
  · simp [apply_guess, h1, h2, h3, h4, hm, h5 hm]
  · simp [apply_guess, h1, h2, h3, h4, hm]

/-! ### Claim theorems -/

/-- C3 counterexample: for answer "crane" and guess "trace" the code does NOT
return [yellow, yellow, yellow, grey, yellow]: positions 1 (r), 2 (a) and
4 (e) of the guess match the answer exactly, so they are green. -/
theorem crane_trace_claim_false :
    ¬ (calculate_guess_result "crane".toList "trace".toList =
      ["yellow", "yellow", "yellow", "grey", "yellow"]) := by
  decide

/-- C3 amended: for answer "crane" and guess "trace", guess evaluation
returns the status sequence [grey, green, green, yellow, green]. -/
theorem crane_trace_statuses :
    calculate_guess_result "crane".toList "trace".toList =
      ["grey", "green", "green", "yellow", "green"] := by
  decide

/-- C6: calculate_points is non-negative for every difficulty and count;
for "hard" it is the fixed table 20,18,16,14,12,10 on counts 1..6 and 0
elsewhere; for "normal" and every other difficulty it is
max 0 (10 - (guessesUsed - 1)). -/
theorem calculate_points_spec :
    (∀ (d : String) (g : Int), 0 ≤ calculate_points d g) ∧
    (calculate_points "hard" 1 = 20 ∧ calculate_points "hard" 2 = 18 ∧
     calculate_points "hard" 3 = 16 ∧ calculate_points "hard" 4 = 14 ∧
     calculate_points "hard" 5 = 12 ∧ calculate_points "hard" 6 = 10) ∧
    (∀ g : Int, (g < 1 ∨ 6 < g) → calculate_points "hard" g = 0) ∧
    (∀ (d : String) (g : Int), d ≠ "hard" →
      calculate_points d g = max 0 (10 - (g - 1))) := by
  refine ⟨?_, ⟨rfl, rfl, rfl, rfl, rfl, rfl⟩, ?_, ?_⟩
  · intro d g
    unfold calculate_points
    split <;> [skip; split] <;> repeat first | omega | split
  · intro g hg
    unfold calculate_points
    rw [if_pos rfl]
    repeat rw [if_neg (by omega)]
  · intro d g hd
    unfold calculate_points
    rw [if_neg hd]
    split <;> rfl

/-- C6 witness: concrete instantiations discharging both hypotheses. -/
theorem calculate_points_spec_witness :
    0 ≤ calculate_points "normal" 3 ∧ calculate_points "hard" 7 = 0 ∧
    calculate_points "easy" 4 = max 0 (10 - (4 - 1)) :=
  ⟨calculate_points_spec.1 "normal" 3,
   calculate_points_spec.2.2.1 7 (Or.inr (by norm_num)),
   calculate_points_spec.2.2.2 "easy" 4 (by decide)⟩

/-- C2: apply_guess validates in order length-5, alphabetic, (lowercase)
duplicate, word list, hard-mode constraints, returning the distinct failure
of the first failing check with the state completely unchanged. -/
theorem apply_guess_validation (v : Word → Bool) (s : GameState) (g : Word) :
    (g.length ≠ 5 →
      apply_guess v s g = (s, GuessResult.fail "Guess must be exactly 5 letters")) ∧
    (g.length = 5 → ¬ (g.all Char.isAlpha = true) →
      apply_guess v s g = (s, GuessResult.fail "Guess must contain only letters")) ∧
    (g.length = 5 → g.all Char.isAlpha = true → g.map Char.toLower ∈ s.guesses →
      apply_guess v s g = (s, GuessResult.fail "That word has already been guessed.")) ∧
    (g.length = 5 → g.all Char.isAlpha = true → g.map Char.toLower ∉ s.guesses →
      v (g.map Char.toLower) = false →
      apply_guess v s g = (s, GuessResult.fail "Not a valid word!")) ∧
    (g.length = 5 → g.all Char.isAlpha = true → g.map Char.toLower ∉ s.guesses →
      v (g.map Char.toLower) = true → s.is_hard_mode = true →
      check_hard_mode_constraints s (g.map Char.toLower) ≠ "" →
      apply_guess v s g =
        (s, GuessResult.fail (check_hard_mode_constraints s (g.map Char.toLower)))) := by
  exact ⟨apply_guess_fail_len v s g,
    apply_guess_fail_alpha v s g,
    apply_guess_fail_dup v s g,
    apply_guess_fail_word v s g,
    apply_guess_fail_hard v s g⟩

/-- C2 witness: each of the five failure branches at a concrete input. -/
theorem apply_guess_validation_witness :
    apply_guess vAll craneState "cat".toList =
      (craneState, GuessResult.fail "Guess must be exactly 5 letters") ∧
    apply_guess vAll craneState "ab1de".toList =
      (craneState, GuessResult.fail "Guess must contain only letters") ∧
    apply_guess vAll craneGuessedState "CRANE".toList =
      (craneGuessedState, GuessResult.fail "That word has already been guessed.") ∧
    apply_guess vNone craneState "slate".toList =
      (craneState, GuessResult.fail "Not a valid word!") ∧
    apply_guess vAll hardState "slate".toList =
      (hardState, GuessResult.fail
        (check_hard_mode_constraints hardState "slate".toList)) :=
  ⟨(apply_guess_validation vAll craneState "cat".toList).1 (by decide),
   (apply_guess_validation vAll craneState "ab1de".toList).2.1 (by decide) (by decide),
   (apply_guess_validation vAll craneGuessedState "CRANE".toList).2.2.1
     (by decide) (by decide) (by decide),
   (apply_guess_validation vNone craneState "slate".toList).2.2.2.1
     (by decide) (by decide) (by decide) rfl,
   (apply_guess_validation vAll hardState "slate".toList).2.2.2.2
     (by decide) (by decide) (by decide) rfl rfl (by decide)⟩

/-- C8: on a successful apply_guess the result's is_finished is true exactly
when the guess equals the answer or max_guesses > 0 and the guess count
after the call reaches it; with max_guesses = 0 (NORMAL) the game finishes
only on a correct guess. -/
theorem apply_guess_is_finished (v : Word → Bool) (s : GameState) (g : Word)
    (h1 : g.length = 5) (h2 : g.all Char.isAlpha = true)
    (h3 : g.map Char.toLower ∉ s.guesses) (h4 : v (g.map Char.toLower) = true)
    (h5 : s.is_hard_mode = true →
      check_hard_mode_constraints s (g.map Char.toLower) = "") :
    ((apply_guess v s g).2.is_finished = true ↔
      (g.map Char.toLower = s.answer ∨
        (0 < s.max_guesses ∧ s.guesses.length + 1 ≥ s.max_guesses))) ∧
    (s.max_guesses = 0 →
      (apply_guess v s g).2.is_finished = (apply_guess v s g).2.is_correct) := by
  rw [apply_guess_success_eq v s g h1 h2 h3 h4 h5]
  dsimp only
  constructor
  · simp
  · intro h0
    simp [h0]

/-- C8 witness: correct first guess in a NORMAL game. -/
theorem apply_guess_is_finished_witness :
    ((apply_guess vAll craneState "crane".toList).2.is_finished = true ↔
      ("crane".toList.map Char.toLower = craneState.answer ∨
        (0 < craneState.max_guesses ∧
          craneState.guesses.length + 1 ≥ craneState.max_guesses))) ∧
    (apply_guess vAll craneState "crane".toList).2.is_finished =
      (apply_guess vAll craneState "crane".toList).2.is_correct :=
  ⟨(apply_guess_is_finished vAll craneState "crane".toList (by decide) (by decide)
      (by decide) rfl (by decide)).1,
   (apply_guess_is_finished vAll craneState "crane".toList (by decide) (by decide)
      (by decide) rfl (by decide)).2 rfl⟩

/-- C9: every apply_guess call preserves len(guesses) = len(guess_results):
failures change nothing, successes append one entry to each; and
from_dict ∘ to_dict restores a state satisfying the invariant. -/
theorem apply_guess_length_invariant (v : Word → Bool) (s : GameState) (g : Word)
    (hinv : s.guesses.length = s.guess_results.length) :
    ((apply_guess v s g).2.error ≠ "" → (apply_guess v s g).1 = s) ∧
    ((apply_guess v s g).2.error = "" →
      (apply_guess v s g).1.guesses.length = s.guesses.length + 1 ∧
      (apply_guess v s g).1.guess_results.length = s.guess_results.length + 1) ∧
    (apply_guess v s g).1.guesses.length =
      (apply_guess v s g).1.guess_results.length ∧
    (from_dict (to_dict s)).guesses.length =
      (from_dict (to_dict s)).guess_results.length := by
  have hfd : (from_dict (to_dict s)).guesses.length =
      (from_dict (to_dict s)).guess_results.length := by
    simp [from_dict, to_dict, GameState.mk0, hinv]
  have hmain : ((apply_guess v s g).1 = s ∧ (apply_guess v s g).2.error ≠ "") ∨
      ((apply_guess v s g).2.error = "" ∧
        (apply_guess v s g).1.guesses.length = s.guesses.length + 1 ∧
        (apply_guess v s g).1.guess_results.length = s.guess_results.length + 1) := by
    by_cases h1 : g.length = 5
    · by_cases h2 : g.all Char.isAlpha = true
      · by_cases h3 : g.map Char.toLower ∈ s.guesses
        · rw [apply_guess_fail_dup v s g h1 h2 h3]
          exact Or.inl ⟨rfl, by simp [GuessResult.fail]⟩
        · by_cases h4 : v (g.map Char.toLower) = true
          · by_cases h6 : s.is_hard_mode = true ∧
                check_hard_mode_constraints s (g.map Char.toLower) ≠ ""
            · rw [apply_guess_fail_hard v s g h1 h2 h3 h4 h6.1 h6.2]
              exact Or.inl ⟨rfl, by simpa [GuessResult.fail] using h6.2⟩
            · have h5 : s.is_hard_mode = true →
                  check_hard_mode_constraints s (g.map Char.toLower) = "" := by
                intro hm
                by_contra hc
                exact h6 ⟨hm, hc⟩
              rw [apply_guess_success_eq v s g h1 h2 h3 h4 h5]
              have hp := update_hmc_preserve
                { s with guesses := s.guesses ++ [g.map Char.toLower] }
                (g.map Char.toLower)
                (calculate_guess_result s.answer (g.map Char.toLower))
              refine Or.inr ⟨rfl, ?_, ?_⟩
              · dsimp only
                by_cases hm : s.is_hard_mode = true
                · rw [if_pos hm]
                  simp [hp.2.1]
                · rw [if_neg hm]
                  simp
              · dsimp only
                by_cases hm : s.is_hard_mode = true
                · rw [if_pos hm]
                  simp [hp.2.2.1]
                · rw [if_neg hm]
                  simp
          · rw [apply_guess_fail_word v s g h1 h2 h3 (by simpa using h4)]
            exact Or.inl ⟨rfl, by simp [GuessResult.fail]⟩
      · rw [apply_guess_fail_alpha v s g h1 h2]
        exact Or.inl ⟨rfl, by simp [GuessResult.fail]⟩
    · rw [apply_guess_fail_len v s g h1]
      exact Or.inl ⟨rfl, by simp [GuessResult.fail]⟩
  rcases hmain with ⟨heq, hne⟩ | ⟨he, hg, hr⟩
  · refine ⟨fun _ => heq, fun he => absurd he hne, ?_, hfd⟩
    rw [heq]
    exact hinv
  · refine ⟨fun hne => absurd he hne, fun _ => ⟨hg, hr⟩, ?_, hfd⟩
    rw [hg, hr, hinv]

/-- C9 witness: a concrete call and round trip on the fresh crane game. -/
theorem apply_guess_length_invariant_witness :
    (apply_guess vAll craneState "slate".toList).1.guesses.length =
      (apply_guess vAll craneState "slate".toList).1.guess_results.length ∧
    (from_dict (to_dict craneState)).guesses.length =
      (from_dict (to_dict craneState)).guess_results.length :=
  ⟨(apply_guess_length_invariant vAll craneState "slate".toList rfl).2.2.1,
   (apply_guess_length_invariant vAll craneState "slate".toList rfl).2.2.2⟩

/-- C10: apply_guess does not itself reject guesses after the game is
finished (is_game_over true): a fresh valid guess still succeeds and
appends to both histories — the rule is enforced by callers only. -/
theorem apply_guess_after_finish (v : Word → Bool) (s : GameState) (g : Word)
    (hover : is_game_over s = true)
    (h1 : g.length = 5) (h2 : g.all Char.isAlpha = true)
    (h3 : g.map Char.toLower ∉ s.guesses) (h4 : v (g.map Char.toLower) = true)
    (h5 : s.is_hard_mode = true →
      check_hard_mode_constraints s (g.map Char.toLower) = "") :
    (apply_guess v s g).2.error = "" ∧
    (apply_guess v s g).1.guesses.length = s.guesses.length + 1 ∧
    (apply_guess v s g).1.guess_results.length = s.guess_results.length + 1 := by
  rw [apply_guess_success_eq v s g h1 h2 h3 h4 h5]
  have hp := update_hmc_preserve
    { s with guesses := s.guesses ++ [g.map Char.toLower] }
    (g.map Char.toLower)
    (calculate_guess_result s.answer (g.map Char.toLower))
  refine ⟨rfl, ?_, ?_⟩
  · dsimp only
    by_cases hm : s.is_hard_mode = true
    · rw [if_pos hm]
      simp [hp.2.1]
    · rw [if_neg hm]
      simp
  · dsimp only
    by_cases hm : s.is_hard_mode = true
    · rw [if_pos hm]
      simp [hp.2.2.1]
    · rw [if_neg hm]
      simp

/-- C10 witness: a finished NORMAL game still accepts a fresh word. -/
theorem apply_guess_after_finish_witness :
    is_game_over craneGuessedState = true ∧
    (apply_guess vAll craneGuessedState "slate".toList).2.error = "" ∧
    (apply_guess vAll craneGuessedState "slate".toList).1.guesses.length =
      craneGuessedState.guesses.length + 1 ∧
    (apply_guess vAll craneGuessedState "slate".toList).1.guess_results.length =
      craneGuessedState.guess_results.length + 1 :=
  ⟨by decide,
   apply_guess_after_finish vAll craneGuessedState "slate".toList (by decide)
     (by decide) (by decide) (by decide) rfl (by decide)⟩

theorem findSome?_none_of_forall {α β : Type} (f : α → Option β) (l : List α)
    (h : ∀ x ∈ l, f x = none) : l.findSome? f = none := by
  induction l with
  | nil => rfl
  | cons a l ih =>
      rw [List.findSome?_cons, h a (List.mem_cons_self a l)]
      exact ih (fun x hx => h x (List.mem_cons_of_mem a hx))

theorem findSome?_append_of_none {α β : Type} (f : α → Option β) (l1 l2 : List α)
    (h : ∀ x ∈ l1, f x = none) : (l1 ++ l2).findSome? f = l2.findSome? f := by
  induction l1 with
  | nil => rfl
  | cons a l ih =>
      rw [List.cons_append, List.findSome?_cons, h a (List.mem_cons_self a l)]
      exact ih (fun x hx => h x (List.mem_cons_of_mem a hx))

theorem findSome?_cons_of_some {α β : Type} (f : α → Option β) (a : α)
    (l : List α) (b : β) (h : f a = some b) : (a :: l).findSome? f = some b := by
  rw [List.findSome?_cons, h]

theorem range5_eq : List.range 5 = [0, 1, 2, 3, 4] := rfl

/-- C4: hard-mode validation checks green constraints first in ascending
position order (failing at the first mismatching constrained position with
a message naming the 1-indexed position and the required letter), then
yellow constraints in stored (insertion) order, failing when a
yellow-constrained letter is absent; a guess containing every
yellow-constrained letter — regardless of the recorded positions — and
matching all greens is never rejected. -/
theorem check_hard_mode_order (s : GameState) (g : Word) :
    (∀ i < 5, ∀ c : Char, dget s.green_constraints i = some c →
      g.getD i ' ' ≠ c →
      (∀ j, j < i → ∀ c' : Char, dget s.green_constraints j = some c' →
        g.getD j ' ' = c') →
      check_hard_mode_constraints s g =
        "Hard mode: position " ++ toString (i + 1) ++ " must be \x27"
          ++ (Char.toUpper c).toString ++ "\x27") ∧
    ((∀ j < 5, ∀ c' : Char, dget s.green_constraints j = some c' →
        g.getD j ' ' = c') →
      (∀ (l1 l2 : List (Char × List Nat)) (c : Char) (ps : List Nat),
        s.yellow_constraints = l1 ++ (c, ps) :: l2 →
        (∀ e ∈ l1, e.1 ∈ g) → c ∉ g →
        check_hard_mode_constraints s g =
          "Hard mode: must use \x27" ++ (Char.toUpper c).toString
            ++ "\x27 from previous guesses") ∧
      ((∀ e ∈ s.yellow_constraints, e.1 ∈ g) →
        check_hard_mode_constraints s g = "")) := by
  constructor
  · intro i hi c hc hmis hprev
    have hsome : greenCheck s.green_constraints g i =
        some ("Hard mode: position " ++ toString (i + 1) ++ " must be \x27"
          ++ (Char.toUpper c).toString ++ "\x27") := by
      unfold greenCheck
      rw [hc]
      dsimp only
      rw [if_pos hmis]
    have hnone : ∀ j, j < i → greenCheck s.green_constraints g j = none := by
      intro j hj
      unfold greenCheck
      cases hgc : dget s.green_constraints j with
      | none => rfl
      | some c' => exact if_neg (not_not_intro (hprev j hj c' hgc))
    have hfind : (List.range 5).findSome? (greenCheck s.green_constraints g) =
        some ("Hard mode: position " ++ toString (i + 1) ++ " must be \x27"
          ++ (Char.toUpper c).toString ++ "\x27") := by
      rw [range5_eq]
      interval_cases i
      · simp [List.findSome?_cons, hsome]
      · simp [List.findSome?_cons, hsome, hnone 0 (by omega)]
      · simp [List.findSome?_cons, hsome, hnone 0 (by omega), hnone 1 (by omega)]
      · simp [List.findSome?_cons, hsome, hnone 0 (by omega), hnone 1 (by omega),
          hnone 2 (by omega)]
      · simp [List.findSome?_cons, hsome, hnone 0 (by omega), hnone 1 (by omega),
          hnone 2 (by omega), hnone 3 (by omega)]
    unfold check_hard_mode_constraints
    rw [hfind]
  · intro hgreen
    have hgnone : (List.range 5).findSome? (greenCheck s.green_constraints g) =
        none := by
      apply findSome?_none_of_forall
      intro j hj
      have hj5 : j < 5 := by simpa [List.mem_range] using hj
      unfold greenCheck
      cases hgc : dget s.green_constraints j with
      | none => rfl
      | some c' => exact if_neg (not_not_intro (hgreen j hj5 c' hgc))
    constructor
    · intro l1 l2 c ps hy hpres habs
      have hyfind : s.yellow_constraints.findSome? (yellowCheck g) =
          some ("Hard mode: must use \x27" ++ (Char.toUpper c).toString
            ++ "\x27 from previous guesses") := by
        rw [hy, findSome?_append_of_none _ _ _ (fun e he => by
          unfold yellowCheck
          simp [hpres e he])]
        apply findSome?_cons_of_some
        unfold yellowCheck
        simp [habs]
      unfold check_hard_mode_constraints
      rw [hgnone, hyfind]
    · intro hall
      have hynone : s.yellow_constraints.findSome? (yellowCheck g) = none := by
        apply findSome?_none_of_forall
        intro e he
        unfold yellowCheck
        simp [hall e he]
      unfold check_hard_mode_constraints
      rw [hgnone, hynone]

/-- C4 witness: on a HARD game with green c at position 0 and yellow a
recorded at position 1, "slate" fails the green check, "chime" fails the
yellow presence check, and "cable" — which even repeats a at the
previously-wrong position 1 — passes. -/
theorem check_hard_mode_order_witness :
    check_hard_mode_constraints hardState "slate".toList =
      "Hard mode: position 1 must be \x27C\x27" ∧
    check_hard_mode_constraints hardState "chime".toList =
      "Hard mode: must use \x27A\x27 from previous guesses" ∧
    check_hard_mode_constraints hardState "cable".toList = "" :=
  ⟨(check_hard_mode_order hardState "slate".toList).1 0 (by decide) 'c'
      (by decide) (by decide) (by omega),
   ((check_hard_mode_order hardState "chime".toList).2 (by decide)).1
      [] [] 'a' [1] rfl (by simp) (by decide),
   ((check_hard_mode_order hardState "cable".toList).2 (by decide)).2
      (by decide)⟩

theorem green_key_roundtrip (l : List (Nat × Char)) (h : ∀ pc ∈ l, pc.1 < 5) :
    (l.map (fun pc => (toString pc.1, pc.2))).map
      (fun kv => (intOfKey kv.1, kv.2)) = l := by
  induction l with
  | nil => rfl
  | cons a l ih =>
      have ha : a.1 < 5 := h a (List.mem_cons_self a l)
      have hk : intOfKey (toString a.1) = a.1 := by
        interval_cases h5 : a.1 <;> decide
      simp [hk, ih (fun x hx => h x (List.mem_cons_of_mem a hx))]

/-- C7: from_dict ∘ to_dict reproduces the GameState exactly — answer,
difficulty, max guesses, channel id, hard-mode flag, guesses, every
GuessResult, green constraints (integer keys restored from the string keys
of the persisted record) and yellow constraints — for every state whose
green-constraint keys are board positions 0–4. -/
theorem from_dict_to_dict_roundtrip (s : GameState)
    (hg : ∀ pc ∈ s.green_constraints, pc.1 < 5) :
    from_dict (to_dict s) = s := by
  cases s with
  | mk answer difficulty max_guesses guesses guess_results channel_id
      created_at is_hard_mode green_constraints yellow_constraints =>
      simp only [from_dict, to_dict, GameState.mk0, GameState.mk.injEq]
      simp [green_key_roundtrip green_constraints hg]

/-- C7 witness: the round trip at a HARD game with two guesses and
non-empty green and yellow constraint stores. -/
theorem from_dict_to_dict_roundtrip_witness :
    from_dict (to_dict roundtripState) = roundtripState :=
  from_dict_to_dict_roundtrip roundtripState (by decide)

theorem getD_mem_of_lt {α : Type} (l : List α) (j : Nat) (d : α)
    (h : j < l.length) : l.getD j d ∈ l := by
  rw [List.getD_eq_getElem?_getD, List.getElem?_eq_getElem h]
  exact List.getElem_mem h

/-- C5: get_keyboard_state maps exactly the 26 letters, each to the maximum
— under unguessed < grey < yellow < green — of unguessed and every status
that letter received at any position of any recorded guess; being a
maximum, a status is never downgraded. -/
theorem get_keyboard_state_spec (s : GameState)
    (hg : ∀ g ∈ s.guesses, g.length = 5 ∧ ∀ c ∈ g, c ∈ keyboardLetters)
    (hr : ∀ r ∈ s.guess_results, r.statuses.length = 5 ∧
      ∀ st ∈ r.statuses, st ∈ ["grey", "yellow", "green"]) :
    (get_keyboard_state s).map Prod.fst = keyboardLetters ∧
    ∀ c ∈ keyboardLetters,
      dget (get_keyboard_state s) c = some (bestStatus s c) := by
  have hinit1 : (keyboardLetters.foldl (fun m c => dset m c "unguessed")
      ([] : List (Char × String))).map Prod.fst = keyboardLetters := by decide
  have hinit2 : ∀ p ∈ keyboardLetters.foldl (fun m c => dset m c "unguessed")
      ([] : List (Char × String)), p.2 ∈ validStatuses := by decide
  have hinit3 : ∀ c ∈ keyboardLetters,
      dget (keyboardLetters.foldl (fun m c => dset m c "unguessed")
        ([] : List (Char × String))) c = some "unguessed" := by decide
  have hps : ∀ p ∈ s.guesses.zip s.guess_results,
      (∀ j ∈ List.range 5, p.1.getD j ' ' ∈ keyboardLetters) ∧
      (∀ j ∈ List.range 5, p.2.statuses.getD j "" ∈ ["grey", "yellow", "green"]) := by
    intro p hpz
    obtain ⟨hp1, hp2⟩ := List.of_mem_zip hpz
    constructor
    · intro j hj
      have hj5 : j < 5 := List.mem_range.mp hj
      have hl := hg p.1 hp1
      exact hl.2 _ (getD_mem_of_lt _ _ _ (by rw [hl.1]; exact hj5))
    · intro j hj
      have hj5 : j < 5 := List.mem_range.mp hj
      have hl := hr p.2 hp2
      exact hl.2 _ (getD_mem_of_lt _ _ _ (by rw [hl.1]; exact hj5))
  have hmain := kb_pairs_fold_spec (s.guesses.zip s.guess_results)
    (keyboardLetters.foldl (fun m c => dset m c "unguessed") [])
    ⟨hinit1, hinit2⟩ hps
  constructor
  · exact hmain.1.1
  · intro c hc
    show dget ((s.guesses.zip s.guess_results).foldl
      (fun kb gr => kbProcessGuess kb gr.1 gr.2)
      (keyboardLetters.foldl (fun m c => dset m c "unguessed") [])) c = _
    rw [hmain.2 c, hinit3 c hc]
    rfl

/-- C5 witness: the keyboard of the two-guess HARD fixture, with the letter
c (green in both recorded results). -/
theorem get_keyboard_state_spec_witness :
    (get_keyboard_state roundtripState).map Prod.fst = keyboardLetters ∧
    dget (get_keyboard_state roundtripState) 'c' =
      some (bestStatus roundtripState 'c') :=
  ⟨(get_keyboard_state_spec roundtripState (by decide) (by decide)).1,
   (get_keyboard_state_spec roundtripState (by decide) (by decide)).2 'c'
     (by decide)⟩

/-- C1: guess evaluation marks exactly the matching positions green; for
every letter c the positions marked green or yellow whose guess letter is c
never exceed the occurrences of c in the answer; and every position is one
of green, yellow, grey — so excess repeats are grey. -/
theorem calculate_guess_result_spec (A G : Word)
    (hA : A.length = 5) (hG : G.length = 5) :
    ((List.range 5).countP
        (fun i => (calculate_guess_result A G).getD i "" = "green")) =
      ((List.range 5).countP (fun i => G.getD i ' ' = A.getD i ' ')) ∧
    (∀ c : Char,
      ((List.range 5).countP (fun i => G.getD i ' ' = c ∧
        ((calculate_guess_result A G).getD i "" = "green" ∨
         (calculate_guess_result A G).getD i "" = "yellow"))) ≤ A.count c) ∧
    (∀ i < 5, (calculate_guess_result A G).getD i "" = "green" ∨
      (calculate_guess_result A G).getD i "" = "yellow" ∨
      (calculate_guess_result A G).getD i "" = "grey") := by
  have hrange : ∀ i ∈ List.range 5, i < 5 := fun i hi => List.mem_range.mp hi
  obtain ⟨g1, g2, g3⟩ := greenPass_spec A G (List.range 5)
    (List.replicate 5 "grey") (buildRemainingCounts A) hrange (by simp)
  have hS1 : ∀ k, k < 5 →
      ((List.range 5).foldl (greenStep A G)
        (List.replicate 5 "grey", buildRemainingCounts A)).1.getD k "" =
      if G.getD k ' ' = A.getD k ' ' then "green" else "grey" := by
    intro k hk
    rw [g2 k]
    by_cases hm : G.getD k ' ' = A.getD k ' '
    · rw [if_pos ⟨List.mem_range.mpr hk, hm⟩, if_pos hm]
    · rw [if_neg (fun h => hm h.2), if_neg hm]
      interval_cases k <;> rfl
  have hgg : ∀ i ∈ List.range 5,
      ((List.range 5).foldl (greenStep A G)
        (List.replicate 5 "grey", buildRemainingCounts A)).1.getD i "" = "green" ∨
      ((List.range 5).foldl (greenStep A G)
        (List.replicate 5 "grey", buildRemainingCounts A)).1.getD i "" = "grey" := by
    intro i hi
    rw [hS1 i (List.mem_range.mp hi)]
    by_cases hm : G.getD i ' ' = A.getD i ' '
    · rw [if_pos hm]
      exact Or.inl rfl
    · rw [if_neg hm]
      exact Or.inr rfl
  have hC1 : ∀ c : Char,
      (dget ((List.range 5).foldl (greenStep A G)
        (List.replicate 5 "grey", buildRemainingCounts A)).2 c).getD 0 =
      (A.count c : Int) - ((List.range 5).countP
        (fun i => G.getD i ' ' = A.getD i ' ' ∧ G.getD i ' ' = c) : Int) := by
    intro c
    rw [g3 c, dget_buildRemainingCounts]
  have hgreens_le : ∀ c : Char,
      (List.range 5).countP
        (fun i => G.getD i ' ' = A.getD i ' ' ∧ G.getD i ' ' = c) ≤ A.count c := by
    intro c
    have hmono : (List.range 5).countP
        (fun i => G.getD i ' ' = A.getD i ' ' ∧ G.getD i ' ' = c) ≤
        (List.range 5).countP (fun i => A.getD i ' ' = c) :=
      List.countP_mono_left (fun x _ hpx =>
        decide_eq_true ((of_decide_eq_true hpx).1 ▸ (of_decide_eq_true hpx).2))
    have hcnt : (List.range 5).countP (fun i => A.getD i ' ' = c) = A.count c := by
      have h := countP_getD_eq_count A ' ' c
      rw [hA] at h
      exact h
    omega
  have hC1nonneg : ∀ c : Char,
      0 ≤ (dget ((List.range 5).foldl (greenStep A G)
        (List.replicate 5 "grey", buildRemainingCounts A)).2 c).getD 0 := by
    intro c
    rw [hC1 c]
    have := hgreens_le c
    omega
  obtain ⟨y1, y2, y3, y4, y5⟩ := yellowPass_spec G (List.range 5)
    ((List.range 5).foldl (greenStep A G)
      (List.replicate 5 "grey", buildRemainingCounts A)).1
    ((List.range 5).foldl (greenStep A G)
      (List.replicate 5 "grey", buildRemainingCounts A)).2
    hrange (List.nodup_range 5) g1 hgg
  have hcal : calculate_guess_result A G =
      ((List.range 5).foldl (yellowStep G)
        (((List.range 5).foldl (greenStep A G)
          (List.replicate 5 "grey", buildRemainingCounts A)).1,
         ((List.range 5).foldl (greenStep A G)
          (List.replicate 5 "grey", buildRemainingCounts A)).2)).1 := rfl
  rw [hcal]
  refine ⟨?_, ?_, ?_⟩
  · apply countP_congr_eq
    intro i hi
    have hi5 := List.mem_range.mp hi
    by_cases hm : G.getD i ' ' = A.getD i ' '
    · have hS2 : ((List.range 5).foldl (yellowStep G)
          (((List.range 5).foldl (greenStep A G)
            (List.replicate 5 "grey", buildRemainingCounts A)).1,
           ((List.range 5).foldl (greenStep A G)
            (List.replicate 5 "grey", buildRemainingCounts A)).2)).1.getD i "" =
          "green" := y3 i hi (by rw [hS1 i hi5, if_pos hm])
      rw [decide_eq_true hS2, decide_eq_true hm]
    · have hS1g : ((List.range 5).foldl (greenStep A G)
          (List.replicate 5 "grey", buildRemainingCounts A)).1.getD i "" =
          "grey" := by
        rw [hS1 i hi5, if_neg hm]
      rcases y4 i hi hS1g with hy | hy
      · rw [decide_eq_false (fun h => absurd (hy.symm.trans h) (by decide)),
          decide_eq_false hm]
      · rw [decide_eq_false (fun h => absurd (hy.symm.trans h) (by decide)),
          decide_eq_false hm]
  · intro c
    have hside : ∀ x ∈ List.range 5,
        decide (G.getD x ' ' = c ∧
          (((List.range 5).foldl (yellowStep G)
            (((List.range 5).foldl (greenStep A G)
              (List.replicate 5 "grey", buildRemainingCounts A)).1,
             ((List.range 5).foldl (greenStep A G)
              (List.replicate 5 "grey", buildRemainingCounts A)).2)).1.getD x "" =
              "green" ∨
           ((List.range 5).foldl (yellowStep G)
            (((List.range 5).foldl (greenStep A G)
              (List.replicate 5 "grey", buildRemainingCounts A)).1,
             ((List.range 5).foldl (greenStep A G)
              (List.replicate 5 "grey", buildRemainingCounts A)).2)).1.getD x "" =
              "yellow")) = true →
        decide (G.getD x ' ' = A.getD x ' ' ∧ G.getD x ' ' = c) = true ∨
        decide (G.getD x ' ' = c ∧
          ((List.range 5).foldl (yellowStep G)
            (((List.range 5).foldl (greenStep A G)
              (List.replicate 5 "grey", buildRemainingCounts A)).1,
             ((List.range 5).foldl (greenStep A G)
              (List.replicate 5 "grey", buildRemainingCounts A)).2)).1.getD x "" =
            "yellow") = true := by
      intro x hx hrx
      have hp := of_decide_eq_true hrx
      rcases hp.2 with hgreen | hyellow
      · have hx5 := List.mem_range.mp hx
        by_cases hm : G.getD x ' ' = A.getD x ' '
        · exact Or.inl (decide_eq_true ⟨hm, hp.1⟩)
        · have hS1g : ((List.range 5).foldl (greenStep A G)
              (List.replicate 5 "grey", buildRemainingCounts A)).1.getD x "" =
              "grey" := by
            rw [hS1 x hx5, if_neg hm]
          rcases y4 x hx hS1g with hy | hy
          · exact absurd (hy.symm.trans hgreen) (by decide)
          · exact absurd (hy.symm.trans hgreen) (by decide)
      · exact Or.inr (decide_eq_true ⟨hp.1, hyellow⟩)
    have hsplit := countP_le_countP_add_countP (List.range 5) _ _ _ hside
    obtain ⟨hy0, hyeq⟩ := y5 c (hC1nonneg c)
    rw [hC1 c] at hyeq
    omega
  · intro i hi5
    have hi : i ∈ List.range 5 := List.mem_range.mpr hi5
    by_cases hm : G.getD i ' ' = A.getD i ' '
    · exact Or.inl (y3 i hi (by rw [hS1 i hi5, if_pos hm]))
    · have hS1g : ((List.range 5).foldl (greenStep A G)
          (List.replicate 5 "grey", buildRemainingCounts A)).1.getD i "" =
          "grey" := by
        rw [hS1 i hi5, if_neg hm]
      rcases y4 i hi hS1g with hy | hy
      · exact Or.inr (Or.inl hy)
      · exact Or.inr (Or.inr hy)

/-- C1 witness: the answer allot / guess lolly duplicate-letter example:
exactly one green, and the three occurrences of l receive at most the two
occurrences of l that allot contains. -/
theorem calculate_guess_result_spec_witness :
    ((List.range 5).countP
        (fun i => (calculate_guess_result "allot".toList "lolly".toList).getD
          i "" = "green")) =
      ((List.range 5).countP (fun i =>
        "lolly".toList.getD i ' ' = "allot".toList.getD i ' ')) ∧
    ((List.range 5).countP (fun i => "lolly".toList.getD i ' ' = 'l' ∧
        ((calculate_guess_result "allot".toList "lolly".toList).getD i "" =
          "green" ∨
         (calculate_guess_result "allot".toList "lolly".toList).getD i "" =
          "yellow"))) ≤ "allot".toList.count 'l' :=
  ⟨(calculate_guess_result_spec "allot".toList "lolly".toList rfl rfl).1,
   (calculate_guess_result_spec "allot".toList "lolly".toList rfl rfl).2.1 'l'⟩

end WordleBot
